import Mathlib

/-!
Verification of the sanitizing walker of `html_sanitizer` (`src/lib.rs`).

Rust strings are modelled as lists of characters; the html5ever `rcdom`
node tree is modelled by the mutual inductives `Node` / `NodeList`
(every rcdom node carries a children list, whatever its kind).  The
`Tag` struct, its mutator methods, and the recursive walker
`TagParser.internal_walk` are translated directly from `src/lib.rs`;
the policy callback, which in Rust mutates a `&mut Tag`, is modelled as
a function `Tag → Tag`.
-/

/-- Rust strings / string slices, modelled as lists of characters. -/
abbrev Str := List Char

/-- Embed a Lean string literal as a `Str`. -/
def str (s : String) : Str := s.data

/-- `str::trim` on a `Str`: drop leading and trailing whitespace. -/
def Str.trim (s : Str) : Str :=
  ((s.dropWhile Char.isWhitespace).reverse.dropWhile Char.isWhitespace).reverse

/-- The kinds of node data of html5ever's `rcdom::NodeData`, with the
payloads the walker reads (element name and attribute pairs, text
contents).  Payloads the walker never reads (comment text, doctype
fields, processing-instruction fields) are omitted. -/
inductive NodeData where
  | document : NodeData
  | doctype : NodeData
  | text (contents : Str) : NodeData
  | comment : NodeData
  | element (name : Str) (attrs : List (Str × Str)) : NodeData
  | processingInstruction : NodeData

mutual

/-- An rcdom node: its data together with its (ordered) children.
In rcdom every node has a children list, whatever its kind. -/
inductive Node where
  | mk (data : NodeData) (children : NodeList)

/-- An ordered sequence of children nodes. -/
inductive NodeList where
  | nil : NodeList
  | cons (hd : Node) (tl : NodeList) : NodeList

end

/-- The data of a node. -/
def Node.data : Node → NodeData
  | .mk d _ => d

/-- The children of a node. -/
def Node.children : Node → NodeList
  | .mk _ c => c

/-- The `Tag` struct of `src/lib.rs`: name and attributes of one HTML
element plus the decision state the policy callback mutates. -/
structure Tag where
  name : Str
  attrs : List (Str × Str)
  rewrite : Option Str
  allowed_attributes : List Str
  ignore_self : Bool
  ignore_contents : Bool

/-- `Tag::from_name_and_attrs`: a fresh decision with default flags. -/
def Tag.from_name_and_attrs (name : Str) (attrs : List (Str × Str)) : Tag :=
  { name := name
    attrs := attrs
    rewrite := none
    allowed_attributes := []
    ignore_self := false
    ignore_contents := false }

/-- `Tag::allow_attribute`: push one attribute name onto the allow list. -/
def Tag.allow_attribute (t : Tag) (attr : Str) : Tag :=
  { t with allowed_attributes := t.allowed_attributes ++ [attr] }

/-- `Tag::allow_attributes`: push each given name in order onto the
allow list (the Rust method loops over the slice, pushing clones). -/
def Tag.allow_attributes (t : Tag) (attrs : List Str) : Tag :=
  { t with allowed_attributes :=
      attrs.foldl (fun acc a => acc ++ [a]) t.allowed_attributes }

/-- `Tag::ignore_self_and_contents`: set both suppress flags. -/
def Tag.ignore_self_and_contents (t : Tag) : Tag :=
  { t with ignore_self := true, ignore_contents := true }

/-- `Tag::ignore_self` (the mutator method; named `ignoreSelf` here
because `Tag.ignore_self` is the field projection). -/
def Tag.ignoreSelf (t : Tag) : Tag :=
  { t with ignore_self := true }

/-- `Tag::rewrite_as`: replace this node and its subtree by a string. -/
def Tag.rewrite_as (t : Tag) (new_contents : Str) : Tag :=
  { t with rewrite := some new_contents }

/-- A policy callback.  In Rust it receives `&mut Tag`; here it maps
the fresh decision to the mutated one. -/
abbrev Policy := Tag → Tag

/-- The attribute section of an opening tag, as built by the loop at
lines 118–126 of `src/lib.rs`: iterate the (possibly
callback-replaced) `tag.attrs` in order and emit
`" key=\"value\""` for each pair whose key occurs in
`tag.allowed_attributes`. -/
def renderedAttrs (tag : Tag) : Str :=
  (tag.attrs.map (fun attr =>
    if tag.allowed_attributes.any (fun a => a == attr.fst) then
      str " " ++ attr.fst ++ str "=\"" ++ attr.snd ++ str "\""
    else [])).flatten

mutual

/-- `TagParser::internal_walk` of `src/lib.rs`: serialize one node.
For an element: build a fresh `Tag`, run the callback, then
(in this order) return empty if both suppress flags are set, return
the rewrite string if one is set, otherwise emit the opening tag
(unless `ignore_self`), the children (unless `ignore_contents`) and
the closing tag (unless `ignore_self`).  For every non-element node:
emit `contents.trim()` for text, nothing otherwise, then always
recurse into the children. -/
def TagParser.internal_walk (callback : Policy) : Node → Str
  | .mk (.element name attrs) children =>
    let tag := callback (Tag.from_name_and_attrs name attrs)
    if tag.ignore_self && tag.ignore_contents then []
    else
      match tag.rewrite with
      | some rewrite => rewrite
      | none =>
        (if tag.ignore_self then []
         else str "<" ++ name ++ renderedAttrs tag ++ str ">")
        ++ (if tag.ignore_contents then []
            else TagParser.walk_children callback children)
        ++ (if tag.ignore_self then [] else str "</" ++ name ++ str ">")
  | .mk .document children => TagParser.walk_children callback children
  | .mk .doctype children => TagParser.walk_children callback children
  | .mk (.text contents) children =>
    Str.trim contents ++ TagParser.walk_children callback children
  | .mk .comment children => TagParser.walk_children callback children
  | .mk .processingInstruction children =>
    TagParser.walk_children callback children

/-- The child loop of `internal_walk`: concatenate the serializations
of the children in order. -/
def TagParser.walk_children (callback : Policy) : NodeList → Str
  | .nil => []
  | .cons c cs =>
    TagParser.internal_walk callback c ++ TagParser.walk_children callback cs

end

/-- The `RcDom` produced by the external html5ever parse, as read by
`TagParser::new`: the document node and the parser's diagnostic
error list. -/
structure RcDom where
  document : Node
  errors : List Str

/-- The `TagParser` struct: it owns the parsed dom. -/
structure TagParser where
  dom : RcDom

/-- `TagParser::new` (`src/lib.rs` lines 66–87), taking the result of
the external html5ever parse as its argument: if the parse's
diagnostic error list is non-empty, return `Err` carrying it,
otherwise `Ok` with a parser over the dom. -/
def TagParser.new (parsed : RcDom) : Except (List Str) TagParser :=
  if !parsed.errors.isEmpty then Except.error parsed.errors
  else Except.ok { dom := parsed }

/-- `TagParser::walk`: run `internal_walk` from the document node. -/
def TagParser.walk (p : TagParser) (callback : Policy) : Str :=
  TagParser.internal_walk callback p.dom.document

mutual

/-- The trace of policy-callback invocations of `internal_walk`:
the `(name, attrs)` payload of each element for which the callback
runs, in invocation order.  It mirrors `internal_walk`'s control
flow exactly: the callback runs once when an element is reached,
and the children are visited only when the resulting decision
neither sets both suppress flags, nor carries a rewrite, nor sets
`ignore_contents`. -/
def walkTrace (callback : Policy) : Node → List (Str × List (Str × Str))
  | .mk (.element name attrs) children =>
    let tag := callback (Tag.from_name_and_attrs name attrs)
    (name, attrs) ::
      (if tag.ignore_self && tag.ignore_contents then []
       else if tag.rewrite.isSome then []
       else if tag.ignore_contents then []
       else walkTraceList callback children)
  | .mk .document children => walkTraceList callback children
  | .mk .doctype children => walkTraceList callback children
  | .mk (.text _) children => walkTraceList callback children
  | .mk .comment children => walkTraceList callback children
  | .mk .processingInstruction children => walkTraceList callback children

/-- Trace of callback invocations over a list of children, in order. -/
def walkTraceList (callback : Policy) : NodeList → List (Str × List (Str × Str))
  | .nil => []
  | .cons c cs => walkTrace callback c ++ walkTraceList callback cs

end

mutual

/-- The pre-order list of all element nodes of a tree (each element's
`(name, attrs)` payload, the element before its descendants). -/
def elementsOf : Node → List (Str × List (Str × Str))
  | .mk (.element name attrs) children => (name, attrs) :: elementsOfList children
  | .mk .document children => elementsOfList children
  | .mk .doctype children => elementsOfList children
  | .mk (.text _) children => elementsOfList children
  | .mk .comment children => elementsOfList children
  | .mk .processingInstruction children => elementsOfList children

/-- Pre-order elements of a list of trees, in order. -/
def elementsOfList : NodeList → List (Str × List (Str × Str))
  | .nil => []
  | .cons c cs => elementsOf c ++ elementsOfList cs

end

mutual

/-- Modelled from the spec: the output the spec promises for a walk
under a policy that makes no decisions — every element keeps its
opening and closing tag with every attribute dropped, text appears
trimmed, and nothing else is emitted. -/
def serializeNoAttrs : Node → Str
  | .mk (.element name _) children =>
    str "<" ++ name ++ str ">" ++ serializeNoAttrsList children
      ++ str "</" ++ name ++ str ">"
  | .mk .document children => serializeNoAttrsList children
  | .mk .doctype children => serializeNoAttrsList children
  | .mk (.text contents) children =>
    Str.trim contents ++ serializeNoAttrsList children
  | .mk .comment children => serializeNoAttrsList children
  | .mk .processingInstruction children => serializeNoAttrsList children

/-- Attribute-free serialization of a list of trees, in order. -/
def serializeNoAttrsList : NodeList → Str
  | .nil => []
  | .cons c cs => serializeNoAttrs c ++ serializeNoAttrsList cs

end

/-- The plain list of a `NodeList`. -/
def NodeList.toList : NodeList → List Node
  | .nil => []
  | .cons c cs => c :: cs.toList

/-- Concrete leaf `<img>` used in concrete checks. -/
def imgLeaf : Node := Node.mk (NodeData.element (str "img") []) NodeList.nil

/-- Concrete tree `<div><img></img></div>` used in concrete checks. -/
def nestedTree : Node :=
  Node.mk (NodeData.element (str "div") []) (NodeList.cons imgLeaf NodeList.nil)

/-- A comment node that structurally carries a text child. -/
def commentWithChild : Node :=
  Node.mk NodeData.comment
    (NodeList.cons (Node.mk (NodeData.text (str "x")) NodeList.nil) NodeList.nil)

/-- Concrete element `<p class="a" class="b" x="y">` (no children) with
a duplicate attribute key, used in concrete checks. -/
def dupAttrElem : Node :=
  Node.mk
    (NodeData.element (str "p")
      [(str "class", str "a"), (str "class", str "b"), (str "x", str "y")])
    NodeList.nil

/-! ## Helper lemmas -/

/-- The child loop concatenates the children's individual walks. -/
theorem walk_children_eq_flatten (cb : Policy) :
    ∀ l : NodeList,
      TagParser.walk_children cb l
        = (l.toList.map (TagParser.internal_walk cb)).flatten
  | .nil => rfl
  | .cons c cs => by
    simp [TagParser.walk_children, NodeList.toList, walk_children_eq_flatten cb cs]

/-- Mapping a guarded renderer over a list equals mapping the renderer
over the filtered list. -/
theorem flatten_map_ite {α : Type} (p : α → Bool) (f : α → Str) :
    ∀ l : List α,
      (l.map (fun a => if p a then f a else [])).flatten
        = ((l.filter p).map f).flatten
  | [] => rfl
  | a :: l => by
    by_cases h : p a <;> simp [h, flatten_map_ite p f l]

/-! ## Claims -/

/-- C1, counterexample: a policy that sets a rewrite and also sets both
suppress flags.  The walker checks `ignore_self && ignore_contents`
before the rewrite, so the element contributes the empty string, not
the rewrite string — the rewrite does not take precedence over the
combination of both suppress flags. -/
theorem c1_counterexample :
    TagParser.internal_walk
      (fun t => Tag.ignore_self_and_contents (Tag.rewrite_as t (str "X")))
      imgLeaf ≠ str "X" := by decide

/-- C1, amended: if the policy sets `rewrite` on an element's decision
and at least one of the two suppress flags is left unset, the
element's whole contribution to the output is exactly the rewrite
string; only the combination of both suppress flags (checked first
by the walker) overrides the rewrite. -/
theorem c1_rewrite_precedence (cb : Policy) (name : Str)
    (attrs : List (Str × Str)) (children : NodeList) (s : Str)
    (hrw : (cb (Tag.from_name_and_attrs name attrs)).rewrite = some s)
    (hflag : (cb (Tag.from_name_and_attrs name attrs)).ignore_self = false ∨
      (cb (Tag.from_name_and_attrs name attrs)).ignore_contents = false) :
    TagParser.internal_walk cb (Node.mk (NodeData.element name attrs) children)
      = s := by
  unfold TagParser.internal_walk
  rcases hflag with h | h <;> simp [h, hrw]

/-- C1, witness: a policy that suppresses self (but not contents) and
rewrites; the output is the rewrite string. -/
theorem c1_rewrite_precedence_witness :
    ((fun t => Tag.rewrite_as (Tag.ignoreSelf t) (str "Y"))
        (Tag.from_name_and_attrs (str "img") [])).rewrite = some (str "Y") ∧
    ((fun t => Tag.rewrite_as (Tag.ignoreSelf t) (str "Y"))
        (Tag.from_name_and_attrs (str "img") [])).ignore_contents = false ∧
    TagParser.internal_walk (fun t => Tag.rewrite_as (Tag.ignoreSelf t) (str "Y"))
      (Node.mk (NodeData.element (str "img") []) NodeList.nil) = str "Y" :=
  ⟨rfl, rfl,
    c1_rewrite_precedence (fun t => Tag.rewrite_as (Tag.ignoreSelf t) (str "Y"))
      (str "img") [] NodeList.nil (str "Y") rfl (Or.inr rfl)⟩

/-- C3: if the policy sets both suppress flags on an element's decision
(what `ignore_self_and_contents` does), the element and its entire
subtree contribute the empty string to the output. -/
theorem c3_suppress_all_empty (cb : Policy) (name : Str)
    (attrs : List (Str × Str)) (children : NodeList)
    (h1 : (cb (Tag.from_name_and_attrs name attrs)).ignore_self = true)
    (h2 : (cb (Tag.from_name_and_attrs name attrs)).ignore_contents = true) :
    TagParser.internal_walk cb (Node.mk (NodeData.element name attrs) children)
      = [] := by
  unfold TagParser.internal_walk
  simp [h1, h2]

/-- C3, witness: `ignore_self_and_contents` on `<div><img></img></div>`
yields the empty output. -/
theorem c3_suppress_all_empty_witness :
    ((fun t => Tag.ignore_self_and_contents t)
        (Tag.from_name_and_attrs (str "div") [])).ignore_self = true ∧
    ((fun t => Tag.ignore_self_and_contents t)
        (Tag.from_name_and_attrs (str "div") [])).ignore_contents = true ∧
    TagParser.internal_walk (fun t => Tag.ignore_self_and_contents t) nestedTree
      = [] :=
  ⟨rfl, rfl,
    c3_suppress_all_empty (fun t => Tag.ignore_self_and_contents t)
      (str "div") [] (NodeList.cons imgLeaf NodeList.nil) rfl rfl⟩

/-- C4, counterexample: a comment node that structurally carries a text
child.  The walker emits nothing for the comment itself but then
recurses into the children of every non-element node, so the child
text appears in the output — the claim that children of Comment and
Doctype nodes contribute nothing is false. -/
theorem c4_counterexample :
    TagParser.internal_walk (fun t => t) commentWithChild ≠ [] := by decide

/-- C4, amended: for a Comment or Doctype node the walker emits nothing
for the node itself, but it does recurse: the node's contribution is
exactly the concatenation of its children's serializations (empty
only when the node has no children, which is the case for the trees
html5ever actually builds). -/
theorem c4_comment_doctype_transparent (cb : Policy) (children : NodeList) :
    TagParser.internal_walk cb (Node.mk NodeData.comment children)
        = (children.toList.map (TagParser.internal_walk cb)).flatten ∧
    TagParser.internal_walk cb (Node.mk NodeData.doctype children)
        = (children.toList.map (TagParser.internal_walk cb)).flatten := by
  constructor <;>
    simp [TagParser.internal_walk, walk_children_eq_flatten]

/-- C9: `TagParser::new` succeeds exactly when the parse's diagnostic
error list is empty; on a non-empty list it returns `Err` carrying
exactly that list, and on success the parser holds the parsed dom. -/
theorem c9_new_errors (parsed : RcDom) :
    ((∃ p, TagParser.new parsed = Except.ok p) ↔ parsed.errors = []) ∧
    (parsed.errors ≠ [] → TagParser.new parsed = Except.error parsed.errors) ∧
    (∀ p, TagParser.new parsed = Except.ok p → p.dom = parsed) := by
  unfold TagParser.new
  by_cases h : parsed.errors = [] <;>
    simp [List.isEmpty_iff, h]

/-- C9, witness: a parse with one diagnostic error fails, carrying it. -/
theorem c9_new_errors_witness :
    TagParser.new { document := imgLeaf, errors := [str "e"] }
      = Except.error [str "e"] :=
  (c9_new_errors { document := imgLeaf, errors := [str "e"] }).2.1 (by decide)

/-- C10: `allow_attributes` is observationally equivalent to calling
`allow_attribute` once per name in list order — the resulting
decisions are equal, hence every walk serializes identically under
either call sequence. -/
theorem c10_allow_attributes_fold (t : Tag) (attrs : List Str) :
    Tag.allow_attributes t attrs = attrs.foldl Tag.allow_attribute t ∧
    ∀ (cb : Policy) (n : Node),
      TagParser.internal_walk (fun tg => Tag.allow_attributes (cb tg) attrs) n
        = TagParser.internal_walk
            (fun tg => attrs.foldl Tag.allow_attribute (cb tg)) n := by
  have key : ∀ (attrs : List Str) (t : Tag),
      Tag.allow_attributes t attrs = attrs.foldl Tag.allow_attribute t := by
    intro attrs
    induction attrs with
    | nil => intro t; rfl
    | cons a as ih =>
      intro t
      have h := ih (Tag.allow_attribute t a)
      simp [Tag.allow_attributes, Tag.allow_attribute, List.foldl] at h ⊢
      exact h
  refine ⟨key attrs t, fun cb n => ?_⟩
  have : (fun tg => Tag.allow_attributes (cb tg) attrs)
      = fun tg => attrs.foldl Tag.allow_attribute (cb tg) := by
    funext tg
    exact key attrs (cb tg)
  rw [this]

mutual

/-- The invocation trace of a walk is a sublist of the pre-order
element list: every callback invocation belongs to a distinct tree
element, in pre-order. -/
theorem walkTrace_sublist (cb : Policy) :
    (n : Node) → (walkTrace cb n).Sublist (elementsOf n)
  | .mk (.element name attrs) children => by
    unfold walkTrace elementsOf
    refine List.Sublist.cons₂ _ ?_
    split
    · exact List.nil_sublist _
    · split
      · exact List.nil_sublist _
      · split
        · exact List.nil_sublist _
        · exact walkTraceList_sublist cb children
  | .mk .document children => walkTraceList_sublist cb children
  | .mk .doctype children => walkTraceList_sublist cb children
  | .mk (.text contents) children => walkTraceList_sublist cb children
  | .mk .comment children => walkTraceList_sublist cb children
  | .mk .processingInstruction children => walkTraceList_sublist cb children

/-- List version of `walkTrace_sublist`. -/
theorem walkTraceList_sublist (cb : Policy) :
    (l : NodeList) → (walkTraceList cb l).Sublist (elementsOfList l)
  | .nil => List.Sublist.slnil
  | .cons c cs =>
    List.Sublist.append (walkTrace_sublist cb c) (walkTraceList_sublist cb cs)

end

mutual

/-- Under a policy that never suppresses contents and never rewrites,
the invocation trace is exactly the pre-order element list. -/
theorem walkTrace_full (cb : Policy)
    (h : ∀ name attrs,
      (cb (Tag.from_name_and_attrs name attrs)).ignore_contents = false ∧
      (cb (Tag.from_name_and_attrs name attrs)).rewrite = none) :
    (n : Node) → walkTrace cb n = elementsOf n
  | .mk (.element name attrs) children => by
    unfold walkTrace elementsOf
    simp [(h name attrs).1, (h name attrs).2,
      walkTraceList_full cb h children]
  | .mk .document children => walkTraceList_full cb h children
  | .mk .doctype children => walkTraceList_full cb h children
  | .mk (.text contents) children => walkTraceList_full cb h children
  | .mk .comment children => walkTraceList_full cb h children
  | .mk .processingInstruction children => walkTraceList_full cb h children

/-- List version of `walkTrace_full`. -/
theorem walkTraceList_full (cb : Policy)
    (h : ∀ name attrs,
      (cb (Tag.from_name_and_attrs name attrs)).ignore_contents = false ∧
      (cb (Tag.from_name_and_attrs name attrs)).rewrite = none) :
    (l : NodeList) → walkTraceList cb l = elementsOfList l
  | .nil => rfl
  | .cons c cs => by
    unfold walkTraceList elementsOfList
    rw [walkTrace_full cb h c, walkTraceList_full cb h cs]

end

/-- C2, counterexample: a policy that suppresses self and contents on
every element.  The inner `<img>` element of `<div><img></img></div>`
is never visited, so the callback does not run exactly once per
element of the tree. -/
theorem c2_counterexample :
    walkTrace (fun t => Tag.ignore_self_and_contents t) nestedTree
      ≠ elementsOf nestedTree := by decide

/-- C2, amended: the callback runs exactly once, in pre-order, for
every element the walk reaches — the invocation trace is a sublist
of the pre-order element list, and it is the whole list whenever no
decision suppresses contents or rewrites (elements inside a
suppressed or rewritten subtree are never visited). -/
theorem c2_callback_invocations (cb : Policy) (n : Node) :
    (walkTrace cb n).Sublist (elementsOf n) ∧
    ((∀ name attrs,
        (cb (Tag.from_name_and_attrs name attrs)).ignore_contents = false ∧
        (cb (Tag.from_name_and_attrs name attrs)).rewrite = none) →
      walkTrace cb n = elementsOf n) :=
  ⟨walkTrace_sublist cb n, fun h => walkTrace_full cb h n⟩

/-- C2, witness: under a policy that only allows an attribute (never
suppressing or rewriting), the trace over `<div><img></img></div>`
is the full pre-order element list. -/
theorem c2_callback_invocations_witness :
    (walkTrace (fun t => Tag.allow_attribute t (str "href")) nestedTree).Sublist
      (elementsOf nestedTree) ∧
    walkTrace (fun t => Tag.allow_attribute t (str "href")) nestedTree
      = elementsOf nestedTree :=
  ⟨(c2_callback_invocations (fun t => Tag.allow_attribute t (str "href"))
      nestedTree).1,
   (c2_callback_invocations (fun t => Tag.allow_attribute t (str "href"))
      nestedTree).2 (fun _ _ => ⟨rfl, rfl⟩)⟩

/-- Mapping the empty renderer over a list flattens to nothing. -/
theorem flatten_map_nil {α : Type} :
    ∀ l : List α, (l.map (fun _ => ([] : Str))).flatten = []
  | [] => rfl
  | _ :: l => by simp [flatten_map_nil l]

mutual

/-- A walk under the decision-free policy serializes every node as the
spec's attribute-free serialization. -/
theorem walk_noop :
    (n : Node) → TagParser.internal_walk (fun t => t) n = serializeNoAttrs n
  | .mk (.element name attrs) children => by
    unfold TagParser.internal_walk serializeNoAttrs
    simp [Tag.from_name_and_attrs, renderedAttrs, flatten_map_nil,
      walk_noop_children children]
  | .mk .document children => walk_noop_children children
  | .mk .doctype children => walk_noop_children children
  | .mk (.text contents) children => by
    unfold TagParser.internal_walk serializeNoAttrs
    rw [walk_noop_children children]
  | .mk .comment children => walk_noop_children children
  | .mk .processingInstruction children => walk_noop_children children

/-- List version of `walk_noop`. -/
theorem walk_noop_children :
    (l : NodeList) →
      TagParser.walk_children (fun t => t) l = serializeNoAttrsList l
  | .nil => rfl
  | .cons c cs => by
    unfold TagParser.walk_children serializeNoAttrsList
    rw [walk_noop c, walk_noop_children cs]

end

/-- C7: a walk under a policy that makes no decisions keeps every
element's opening and closing tag and every text node's trimmed
content in document order, and drops every attribute — the output is
exactly the attribute-free serialization of the tree. -/
theorem c7_noop_policy (n : Node) :
    TagParser.internal_walk (fun t => t) n = serializeNoAttrs n :=
  walk_noop n

mutual

/-- Two policies agreeing on every fresh decision walk every node to
the same output. -/
theorem walk_congr (cb1 cb2 : Policy)
    (h : ∀ name attrs, cb1 (Tag.from_name_and_attrs name attrs)
        = cb2 (Tag.from_name_and_attrs name attrs)) :
    (n : Node) → TagParser.internal_walk cb1 n = TagParser.internal_walk cb2 n
  | .mk (.element name attrs) children => by
    simp only [TagParser.internal_walk]
    rw [h name attrs, walk_children_congr cb1 cb2 h children]
  | .mk .document children => walk_children_congr cb1 cb2 h children
  | .mk .doctype children => walk_children_congr cb1 cb2 h children
  | .mk (.text contents) children => by
    simp only [TagParser.internal_walk]
    rw [walk_children_congr cb1 cb2 h children]
  | .mk .comment children => walk_children_congr cb1 cb2 h children
  | .mk .processingInstruction children => walk_children_congr cb1 cb2 h children

/-- List version of `walk_congr`. -/
theorem walk_children_congr (cb1 cb2 : Policy)
    (h : ∀ name attrs, cb1 (Tag.from_name_and_attrs name attrs)
        = cb2 (Tag.from_name_and_attrs name attrs)) :
    (l : NodeList) →
      TagParser.walk_children cb1 l = TagParser.walk_children cb2 l
  | .nil => rfl
  | .cons c cs => by
    unfold TagParser.walk_children
    rw [walk_congr cb1 cb2 h c, walk_children_congr cb1 cb2 h cs]

end

/-- C8: the walk is deterministic — it is a pure function of the tree
and of the policy's behaviour on fresh decisions: two runs over the
same parsed dom with extensionally equal policies return the same
output string. -/
theorem c8_walk_deterministic (p : TagParser) (cb1 cb2 : Policy)
    (h : ∀ name attrs, cb1 (Tag.from_name_and_attrs name attrs)
        = cb2 (Tag.from_name_and_attrs name attrs)) :
    TagParser.walk p cb1 = TagParser.walk p cb2 :=
  walk_congr cb1 cb2 h p.dom.document

/-- C8, witness: two syntactically different but extensionally equal
policies yield the same output over a concrete dom. -/
theorem c8_walk_deterministic_witness :
    TagParser.walk { dom := { document := nestedTree, errors := [] } }
        (fun t => t)
      = TagParser.walk { dom := { document := nestedTree, errors := [] } }
        (fun t => Tag.allow_attributes t []) :=
  c8_walk_deterministic { dom := { document := nestedTree, errors := [] } }
    (fun t => t) (fun t => Tag.allow_attributes t []) (fun _ _ => rfl)

/-- C5: for a kept element (no rewrite, no suppress flag) the emitted
attribute pairs are exactly the decision's original attribute
sequence filtered, in order, to the pairs whose key occurs in the
allowed-attribute list (duplicates each kept), and the boolean test
used by the walker is plain list membership. -/
theorem c5_attribute_filter (cb : Policy) (name : Str)
    (attrs : List (Str × Str)) (children : NodeList)
    (h1 : (cb (Tag.from_name_and_attrs name attrs)).rewrite = none)
    (h2 : (cb (Tag.from_name_and_attrs name attrs)).ignore_self = false)
    (h3 : (cb (Tag.from_name_and_attrs name attrs)).ignore_contents = false) :
    TagParser.internal_walk cb (Node.mk (NodeData.element name attrs) children)
      = str "<" ++ name
        ++ (((cb (Tag.from_name_and_attrs name attrs)).attrs.filter
              (fun attr =>
                (cb (Tag.from_name_and_attrs name attrs)).allowed_attributes.any
                  (fun a => a == attr.fst))).map
            (fun attr =>
              str " " ++ attr.fst ++ str "=\"" ++ attr.snd ++ str "\"")).flatten
        ++ str ">"
        ++ TagParser.walk_children cb children
        ++ str "</" ++ name ++ str ">" ∧
    (∀ k : Str,
      (cb (Tag.from_name_and_attrs name attrs)).allowed_attributes.any
          (fun a => a == k) = true
        ↔ k ∈ (cb (Tag.from_name_and_attrs name attrs)).allowed_attributes) := by
  constructor
  · simp only [TagParser.internal_walk]
    rw [h1, h2, h3]
    simp only [renderedAttrs, flatten_map_ite]
    simp
  · intro k
    simp [List.any_eq_true, beq_iff_eq]

/-- C5, witness: `class` allowed on
`<p class="a" class="b" x="y">` keeps both `class` pairs in order
and drops `x`. -/
theorem c5_attribute_filter_witness :
    ((fun t => Tag.allow_attribute t (str "class"))
        (Tag.from_name_and_attrs (str "p")
          [(str "class", str "a"), (str "class", str "b"),
            (str "x", str "y")])).rewrite = none ∧
    TagParser.internal_walk (fun t => Tag.allow_attribute t (str "class"))
      (Node.mk
        (NodeData.element (str "p")
          [(str "class", str "a"), (str "class", str "b"), (str "x", str "y")])
        NodeList.nil)
      = str "<p class=\"a\" class=\"b\"></p>" := by
  refine ⟨rfl, ?_⟩
  have h := (c5_attribute_filter (fun t => Tag.allow_attribute t (str "class"))
    (str "p")
    [(str "class", str "a"), (str "class", str "b"), (str "x", str "y")]
    NodeList.nil rfl rfl rfl).1
  rw [h]
  decide

/-- The head of `dropWhile p l`, when present, falsifies `p`. -/
theorem dropWhile_head_false {α : Type} (p : α → Bool) :
    ∀ (l : List α) (a : α), (l.dropWhile p).head? = some a → p a = false
  | [], a => by simp [List.dropWhile]
  | x :: l, a => by
    by_cases h : p x = true
    · rw [List.dropWhile_cons, if_pos h]
      exact dropWhile_head_false p l a
    · rw [List.dropWhile_cons, if_neg h]
      intro hh
      rw [List.head?_cons, Option.some.injEq] at hh
      subst hh
      exact Bool.eq_false_iff.mpr h

/-- Dropping leading whitespace leaves the trimmed string followed by
the (whitespace) tail that trimming removed at the right end. -/
theorem trim_decomposition (s : Str) :
    s.dropWhile Char.isWhitespace
      = Str.trim s
        ++ ((s.dropWhile Char.isWhitespace).reverse.takeWhile
            Char.isWhitespace).reverse := by
  unfold Str.trim
  rw [← List.reverse_append, List.takeWhile_append_dropWhile,
    List.reverse_reverse]

/-- C6: a text node contributes its content trimmed — the output is an
infix of the content (so the interior is verbatim and no character is
escaped), what is removed on either side is whitespace only, and the
result neither starts nor ends with whitespace. -/
theorem c6_text_trim (cb : Policy) (contents : Str) :
    (∀ children,
      TagParser.internal_walk cb (Node.mk (NodeData.text contents) children)
        = Str.trim contents ++ TagParser.walk_children cb children) ∧
    (∃ pre post, (∀ c ∈ pre, c.isWhitespace = true) ∧
      (∀ c ∈ post, c.isWhitespace = true) ∧
      contents = pre ++ Str.trim contents ++ post) ∧
    (∀ a, (Str.trim contents).head? = some a → a.isWhitespace = false) ∧
    (∀ a, (Str.trim contents).getLast? = some a → a.isWhitespace = false) := by
  refine ⟨fun children => rfl, ?_, ?_, ?_⟩
  · refine ⟨contents.takeWhile Char.isWhitespace,
      ((contents.dropWhile Char.isWhitespace).reverse.takeWhile
        Char.isWhitespace).reverse, ?_, ?_, ?_⟩
    · intro c hc
      exact List.mem_takeWhile_imp hc
    · intro c hc
      rw [List.mem_reverse] at hc
      exact List.mem_takeWhile_imp hc
    · conv_lhs =>
        rw [← List.takeWhile_append_dropWhile (p := Char.isWhitespace)
          (l := contents)]
        rw [trim_decomposition contents]
      rw [List.append_assoc]
  · intro a h
    have hd : (contents.dropWhile Char.isWhitespace).head? = some a := by
      rw [trim_decomposition contents]
      cases htrim : Str.trim contents with
      | nil => rw [htrim] at h; simp at h
      | cons x t =>
        rw [htrim] at h
        rw [List.head?_cons, Option.some.injEq] at h
        simp [h]
    exact dropWhile_head_false Char.isWhitespace contents a hd
  · intro a h
    unfold Str.trim at h
    rw [List.getLast?_reverse] at h
    exact dropWhile_head_false Char.isWhitespace
      (contents.dropWhile Char.isWhitespace).reverse a h

/-- C6, witness: the spec's example `"  hello world  \n"` serializes
as `"hello world"`. -/
theorem c6_text_trim_witness :
    TagParser.internal_walk (fun t => t)
      (Node.mk (NodeData.text (str "  hello world  \n")) NodeList.nil)
      = str "hello world" := by
  have h := (c6_text_trim (fun t => t) (str "  hello world  \n")).1 NodeList.nil
  rw [h]
  decide
